import Mathlib

/-!
Verification of the coroTracer harvester core: shared-region layout,
per-station harvest scan, JSONL serialization, engine scan loop.
Definitions are shallow embeddings of the Go source
(structure/station.go, the serializer file, engine/engine.go).
-/

namespace CoroTracer

/-! ### Struct layout (Go layout rules applied to the declared field lists) -/

/-- Round `n` up to the next multiple of `a` (Go struct field alignment). -/
def alignUp (n a : Nat) : Nat := ((n + a - 1) / a) * a

/-- Given (size, alignment) pairs in declaration order, return the field
byte offsets and the end of the last field, per Go's layout algorithm. -/
def layoutFields : Nat → List (Nat × Nat) → List Nat × Nat
  | off, [] => ([], off)
  | off, f :: rest =>
    let o := alignUp off f.2
    let r := layoutFields (o + f.1) rest
    (o :: r.1, r.2)

/-- Alignment of a struct: max alignment of its fields (at least 1). -/
def structAlign (fields : List (Nat × Nat)) : Nat :=
  fields.foldl (fun a f => max a f.2) 1

/-- Field byte offsets of a struct. -/
def structOffsets (fields : List (Nat × Nat)) : List Nat :=
  (layoutFields 0 fields).1

/-- `unsafe.Sizeof` of a struct: end of last field rounded up to the
struct alignment. -/
def structSize (fields : List (Nat × Nat)) : Nat :=
  alignUp (layoutFields 0 fields).2 (structAlign fields)

/-- Fields of `GlobalHeader` as declared in structure/station.go:
MagicNum uint64, Version uint32, MaxStations uint32, AllocatedCount uint32,
TracerSleeping uint32, and an explicit `[1004]byte` padding array. -/
def globalHeaderFields : List (Nat × Nat) :=
  [(8, 8), (4, 4), (4, 4), (4, 4), (4, 4), (1004, 1)]

/-- Fields of `Epoch`: Timestamp uint64, TID uint64, Addr uint64,
Seq uint64, Reserved [31]byte, IsActive bool. -/
def epochFields : List (Nat × Nat) :=
  [(8, 8), (8, 8), (8, 8), (8, 8), (31, 1), (1, 1)]

/-- Fields of the anonymous header block of `StationData`:
ProbeID uint64, BirthTS uint64, IsDead bool, `[47]byte` padding. -/
def stationHeaderFields : List (Nat × Nat) :=
  [(8, 8), (8, 8), (1, 1), (47, 1)]

/-- Fields of `StationData`: the 64-byte header block, `[8]Epoch` slots
(8 × 64 = 512 bytes, alignment 8), `[448]byte` flexible tail. -/
def stationDataFields : List (Nat × Nat) :=
  [(64, 8), (512, 8), (448, 1)]

/-! ### Data model -/

/-- One event slot (`Epoch`): u64 fields modelled as `Nat` (the probe
writes 64-bit values; bounds are stated where they matter). -/
structure Epoch where
  timestamp : Nat
  tid : Nat
  addr : Nat
  seq : Nat
  isActive : Bool
deriving DecidableEq

/-- The 64-byte station header block. -/
structure StationHeader where
  probeID : Nat
  birthTS : Nat
  isDead : Bool
deriving DecidableEq

/-- One station: header block plus the fixed 8-slot ring. -/
structure StationData where
  header : StationHeader
  slots : Fin 8 → Epoch

/-! ### Serializer (MarshalSlotJSONL and its helpers) -/

/-- The hex digit table `"0123456789abcdef"` from the source. -/
def hexChars : List Char := "0123456789abcdef".data

/-- The loop of `appendHex`: for `i` from 15 down to 0 append
`hexChars[(v >> (i*4)) & 0xf]`; `appendHexLoop v (i+1)` emits the digit
for shift `i*4` and recurses, so `appendHexLoop v 16` is the 16-digit
most-significant-first rendering. -/
def appendHexLoop (v : Nat) : Nat → List Char
  | 0 => []
  | i + 1 => hexChars.getD ((v >>> (i * 4)) &&& 15) '0' :: appendHexLoop v i

/-- `appendHex`: append `"0x"` then 16 hex digits of `v`. -/
def appendHex (dst : List Char) (v : Nat) : List Char :=
  dst ++ '0' :: 'x' :: appendHexLoop v 16

/-- Decimal digit table. -/
def decChars : List Char := "0123456789".data

/-- Decimal rendering loop of `strconv.AppendUint(·, v, 10)`: emit
digits of `v` by repeated division, most significant first. -/
def utoaAux (v : Nat) (acc : List Char) : List Char :=
  if h : v < 10 then decChars.getD v '0' :: acc
  else utoaAux (v / 10) (decChars.getD (v % 10) '0' :: acc)
termination_by v
decreasing_by exact Nat.div_lt_self (by omega) (by omega)

/-- `strconv.AppendUint(dst, v, 10)`. -/
def appendUint (dst : List Char) (v : Nat) : List Char :=
  dst ++ utoaAux v []

/-- `MarshalSlotJSONL`: serialize slot `i` of station `s` using the
caller-supplied `observedSeq` for the `seq` field. Mirrors the append
sequence of the source. -/
def marshalSlotJSONL (s : StationData) (buf : List Char) (i : Fin 8)
    (observedSeq : Nat) : List Char :=
  let slot := s.slots i
  let b1 := buf ++ "\x7b\"probe_id\":".data
  let b2 := appendUint b1 s.header.probeID
  let b3 := b2 ++ ",\"tid\":".data
  let b4 := appendUint b3 slot.tid
  let b5 := b4 ++ ",\"addr\":\"".data
  let b6 := appendHex b5 slot.addr
  let b7 := b6 ++ "\",\"seq\":".data
  let b8 := appendUint b7 observedSeq
  let b9 := b8 ++ ",\"is_active\":".data
  let b10 := b9 ++ (if slot.isActive then "true".data else "false".data)
  let b11 := b10 ++ ",\"ts\":".data
  let b12 := appendUint b11 slot.timestamp
  b12 ++ "\x7d\n".data

/-! ### Station harvester (`Harvest`) -/

/-- Result of one `Harvest` call: the station memory after the call
(the engine must not store into it), the updated `lastSeenSeqs` array,
the `WriteSlot` calls `(slot, observedSeq)` in order, the lines appended
to the writer, and the returned count. -/
structure HarvestResult where
  station : StationData
  lastSeen : Fin 8 → Nat
  writes : List (Fin 8 × Nat)
  lines : List (List Char)
  count : Nat

/-- The `for i := 0; i < 8; i++` loop body of `Harvest`, iterated over
the remaining slot indices: load the `seq` snapshot, and if it exceeds
`lastSeenSeqs[i]`, hand `(s, i, currentSeq)` to the writer and update
`lastSeenSeqs[i]`. -/
def harvestList (s : StationData) (ls : Fin 8 → Nat) :
    List (Fin 8) → HarvestResult
  | [] => ⟨s, ls, [], [], 0⟩
  | i :: rest =>
    let currentSeq := (s.slots i).seq
    if currentSeq > ls i then
      let line := marshalSlotJSONL s [] i currentSeq
      let r := harvestList s (Function.update ls i currentSeq) rest
      ⟨r.station, r.lastSeen, (i, currentSeq) :: r.writes, line :: r.lines,
        r.count + 1⟩
    else
      harvestList s ls rest

/-- `Harvest`: scan slots 0..7 in order. -/
def harvest (s : StationData) (ls : Fin 8 → Nat) : HarvestResult :=
  harvestList s ls (List.finRange 8)

/-- Successive `Harvest` calls against successive snapshots of the same
station, threading `lastSeenSeqs`; returns the final `lastSeenSeqs` and
the concatenated `WriteSlot` call sequence. -/
def runHarvests (ls : Fin 8 → Nat) :
    List StationData → (Fin 8 → Nat) × List (Fin 8 × Nat)
  | [] => (ls, [])
  | s :: rest =>
    let r := harvest s ls
    let t := runHarvests r.lastSeen rest
    (t.1, r.writes ++ t.2)

/-- The `seq` values emitted for slot `i`, in emission order. -/
def seqsForSlot (i : Fin 8) (ws : List (Fin 8 × Nat)) : List Nat :=
  (ws.filter (fun w => w.1 == i)).map (fun w => w.2)

/-- Overwrite the `seq` field of slot `i` (what a concurrent probe store
to `slot.Seq` would change, and nothing else). -/
def setSlotSeq (s : StationData) (i : Fin 8) (v : Nat) : StationData :=
  { s with slots := Function.update s.slots i { s.slots i with seq := v } }

/-! ### Engine scan pass (`doScan`) and hot loop (`hotHarvestLoop`) -/

/-- Result of one `doScan` pass: updated per-station `lastSeen`, the
`WriteSlot` calls tagged with their station index, the lines appended,
and the total progress count. -/
structure ScanResult where
  lastSeen : Nat → Fin 8 → Nat
  writes : List (Nat × Fin 8 × Nat)
  lines : List (List Char)
  total : Nat

/-- The `for i := 0; i < allocated; i++` loop of `doScan`, iterated over
the station indices to visit. -/
def doScanList (stations : Nat → StationData) :
    List Nat → (Nat → Fin 8 → Nat) → ScanResult
  | [], ls => ⟨ls, [], [], 0⟩
  | i :: rest, ls =>
    let r := harvest (stations i) (ls i)
    let t := doScanList stations rest (Function.update ls i r.lastSeen)
    ⟨t.lastSeen, (r.writes.map (fun w => (i, w))) ++ t.writes,
      r.lines ++ t.lines, r.count + t.total⟩

/-- `doScan`: load `allocated_count` (the `alloc` argument models the
atomic load), clamp to `maxStations`, harvest stations `[0, allocated)`. -/
def doScan (maxStations alloc : Nat) (stations : Nat → StationData)
    (ls : Nat → Fin 8 → Nat) : ScanResult :=
  let allocated := if alloc > maxStations then maxStations else alloc
  doScanList stations (List.range allocated) ls

/-- Observable steps of one iteration of `hotHarvestLoop`. -/
inductive EngineAct where
  | scan (progress : Nat)
  | flush
  | setSleeping (v : Nat)
  | sockRead (res : Option Nat)
deriving DecidableEq

/-- A snapshot of the shared region as seen by one `doScan` call:
the value the atomic load of `allocated_count` returns, and the station
memory. -/
structure Region where
  allocatedCount : Nat
  stations : Nat → StationData

/-- Result of one iteration of the hot loop body. -/
structure IterResult where
  lastSeen : Nat → Fin 8 → Nat
  actions : List EngineAct
  exited : Bool

/-- `conn.Read` outcome treated as disconnect: an error (`none`) or zero
bytes. -/
def readFailed : Option Nat → Bool
  | none => true
  | some n => n == 0

/-- One iteration of the `for` body of `hotHarvestLoop`: scan; on
progress continue; otherwise flush, store 1 into `tracer_sleeping`,
re-scan (double-check); on progress store 0 and continue; otherwise
block on `conn.Read`, store 0, and exit iff the read failed.
`r1`/`r2` are the region snapshots the two scans observe, `readRes`
the read outcome. -/
def hotLoopIter (maxStations : Nat) (ls : Nat → Fin 8 → Nat)
    (r1 r2 : Region) (readRes : Option Nat) : IterResult :=
  let s1 := doScan maxStations r1.allocatedCount r1.stations ls
  if s1.total > 0 then
    ⟨s1.lastSeen, [.scan s1.total], false⟩
  else
    let s2 := doScan maxStations r2.allocatedCount r2.stations s1.lastSeen
    if s2.total > 0 then
      ⟨s2.lastSeen,
        [.scan s1.total, .flush, .setSleeping 1, .scan s2.total,
          .setSleeping 0], false⟩
    else
      ⟨s2.lastSeen,
        [.scan s1.total, .flush, .setSleeping 1, .scan s2.total,
          .sockRead readRes, .setSleeping 0], readFailed readRes⟩

/-- Value of `tracer_sleeping` after executing a list of actions,
starting from `init`. -/
def sleepAfter (init : Nat) (acts : List EngineAct) : Nat :=
  acts.foldl (fun st a => match a with | .setSleeping v => v | _ => st) init

/-! ### Record grammar and parser -/

/-- Fold a decimal digit run into its value. -/
def parseDec (cs : List Char) : Nat :=
  cs.foldl (fun a c => a * 10 + (c.toNat - 48)) 0

/-- Value of one lowercase hex digit. -/
def hexVal (c : Char) : Nat :=
  if c.toNat ≥ 97 then c.toNat - 87 else c.toNat - 48

/-- Fold a hex digit run into its value. -/
def parseHex (cs : List Char) : Nat :=
  cs.foldl (fun a c => a * 16 + hexVal c) 0

/-- `cs` is the canonical decimal rendering of `v`: nonempty, all ASCII
digits, no redundant leading zero, and reading it back gives `v`. -/
def isDecimalRepOf (cs : List Char) (v : Nat) : Prop :=
  cs ≠ [] ∧ (∀ c ∈ cs, c.isDigit) ∧ (cs.head? = some '0' → cs = ['0']) ∧
    parseDec cs = v

/-- Strip an expected literal prefix. -/
def expectLit (lit cs : List Char) : Option (List Char) :=
  if cs.take lit.length = lit then some (cs.drop lit.length) else none

/-- Parse a nonempty decimal digit run. -/
def parseDecField (cs : List Char) : Option (Nat × List Char) :=
  let ds := cs.takeWhile (fun c => c.isDigit)
  if ds = [] then none
  else some (parseDec ds, cs.dropWhile (fun c => c.isDigit))

/-- Parse exactly 16 lowercase hex digits. -/
def parseHex16 (cs : List Char) : Option (Nat × List Char) :=
  let hs := cs.take 16
  if hs.length = 16 ∧ ∀ c ∈ hs, c ∈ hexChars then
    some (parseHex hs, cs.drop 16)
  else none

/-- Parse a JSON boolean. -/
def parseBoolField (cs : List Char) : Option (Bool × List Char) :=
  if cs.take 4 = "true".data then some (true, cs.drop 4)
  else if cs.take 5 = "false".data then some (false, cs.drop 5)
  else none

/-- Parse one full log record line back into its six field values. -/
def parseRecord (cs : List Char) :
    Option (Nat × Nat × Nat × Nat × Bool × Nat) := do
  let cs ← expectLit "\x7b\"probe_id\":".data cs
  let (p, cs) ← parseDecField cs
  let cs ← expectLit ",\"tid\":".data cs
  let (t, cs) ← parseDecField cs
  let cs ← expectLit ",\"addr\":\"0x".data cs
  let (a, cs) ← parseHex16 cs
  let cs ← expectLit "\",\"seq\":".data cs
  let (q, cs) ← parseDecField cs
  let cs ← expectLit ",\"is_active\":".data cs
  let (b, cs) ← parseBoolField cs
  let cs ← expectLit ",\"ts\":".data cs
  let (ts, cs) ← parseDecField cs
  let cs ← expectLit "\x7d\n".data cs
  if cs = [] then some (p, t, a, q, b, ts) else none

/-! ### Layout theorems -/

/-- C1: the record layouts. `Epoch` is exactly 64 bytes and `StationData`
exactly 1024 bytes with every field at the documented offset, but
`GlobalHeader` is NOT 1024 bytes: its fields occupy 24 bytes and the
explicit padding array is `[1004]byte` (the comment miscounts the field
bytes as 20), so the struct ends at 1028 and `unsafe.Sizeof` rounds it to
1032.  The spec requires a 1000-byte pad and a 1024-byte struct, and the
engine's `HeaderSize = 1024` constant depends on it, so the code
contradicts its own documentation. -/
theorem C1_globalHeader_size_bug :
    structSize epochFields = 64 ∧
    structOffsets epochFields = [0x00, 0x08, 0x10, 0x18, 0x20, 0x3F] ∧
    structSize stationDataFields = 1024 ∧
    structOffsets stationDataFields = [0, 64, 576] ∧
    structSize stationHeaderFields = 64 ∧
    structOffsets stationHeaderFields = [0x00, 0x08, 0x10, 0x11] ∧
    structOffsets globalHeaderFields = [0x00, 0x08, 0x0C, 0x10, 0x14, 0x18] ∧
    structSize globalHeaderFields = 1032 ∧
    structSize globalHeaderFields ≠ 1024 := by
  decide

/-! ### Harvester lemmas -/

theorem harvestList_station (s : StationData) :
    ∀ (l : List (Fin 8)) (ls : Fin 8 → Nat),
      (harvestList s ls l).station = s := by
  intro l
  induction l with
  | nil => intro ls; rfl
  | cons j rest ih =>
    intro ls
    simp only [harvestList]
    split
    · simp [ih]
    · exact ih ls

theorem harvestList_lines (s : StationData) :
    ∀ (l : List (Fin 8)) (ls : Fin 8 → Nat),
      (harvestList s ls l).lines =
        (harvestList s ls l).writes.map
          (fun w => marshalSlotJSONL s [] w.1 w.2) := by
  intro l
  induction l with
  | nil => intro ls; rfl
  | cons j rest ih =>
    intro ls
    simp only [harvestList]
    split
    · simp [ih]
    · exact ih ls

theorem harvestList_count (s : StationData) :
    ∀ (l : List (Fin 8)) (ls : Fin 8 → Nat),
      (harvestList s ls l).count = (harvestList s ls l).writes.length := by
  intro l
  induction l with
  | nil => intro ls; rfl
  | cons j rest ih =>
    intro ls
    simp only [harvestList]
    split
    · simp [ih]
    · exact ih ls

theorem harvestList_lastSeen (s : StationData) :
    ∀ (l : List (Fin 8)), l.Nodup → ∀ (ls : Fin 8 → Nat) (i : Fin 8),
      (harvestList s ls l).lastSeen i =
        if i ∈ l then max (ls i) ((s.slots i).seq) else ls i := by
  intro l
  induction l with
  | nil => intro _ ls i; simp [harvestList]
  | cons j rest ih =>
    intro hnd ls i
    have hj : j ∉ rest := (List.nodup_cons.mp hnd).1
    have hrest : rest.Nodup := (List.nodup_cons.mp hnd).2
    simp only [harvestList]
    split
    · rename_i hgt
      rw [ih hrest]
      rcases eq_or_ne i j with rfl | hne
      · simp [hj, Nat.max_eq_right (Nat.le_of_lt hgt)]
      · simp [Function.update_noteq hne, List.mem_cons, hne]
    · rename_i hle
      rw [ih hrest]
      rcases eq_or_ne i j with rfl | hne
      · simp [hj, Nat.max_eq_left (Nat.le_of_not_lt hle)]
      · simp [List.mem_cons, hne]

theorem harvestList_writes_mem (s : StationData) :
    ∀ (l : List (Fin 8)), l.Nodup → ∀ (ls : Fin 8 → Nat) (i : Fin 8) (q : Nat),
      ((i, q) ∈ (harvestList s ls l).writes ↔
        i ∈ l ∧ ls i < (s.slots i).seq ∧ q = (s.slots i).seq) := by
  intro l
  induction l with
  | nil => intro _ ls i q; simp [harvestList]
  | cons j rest ih =>
    intro hnd ls i q
    have hj : j ∉ rest := (List.nodup_cons.mp hnd).1
    have hrest : rest.Nodup := (List.nodup_cons.mp hnd).2
    simp only [harvestList]
    split
    · rename_i hgt
      constructor
      · intro hm
        rcases List.mem_cons.mp hm with heq | hm'
        · have h1 : i = j := congrArg Prod.fst heq
          have h2 : q = (s.slots j).seq := congrArg Prod.snd heq
          subst h1; subst h2
          exact ⟨List.mem_cons_self _ _, hgt, rfl⟩
        · obtain ⟨hmem, hlt, hq⟩ := (ih hrest _ i q).mp hm'
          have hne : i ≠ j := fun h => hj (h ▸ hmem)
          rw [Function.update_noteq hne] at hlt
          exact ⟨List.mem_cons.mpr (Or.inr hmem), hlt, hq⟩
      · rintro ⟨hmem, hlt, rfl⟩
        rcases eq_or_ne i j with rfl | hne
        · exact List.mem_cons_self _ _
        · have hm' : i ∈ rest := (List.mem_cons.mp hmem).resolve_left hne
          refine List.mem_cons.mpr (Or.inr ((ih hrest _ i _).mpr ⟨hm', ?_, rfl⟩))
          rw [Function.update_noteq hne]
          exact hlt
    · rename_i hle
      rw [ih hrest]
      constructor
      · rintro ⟨hmem, hlt, hq⟩
        exact ⟨List.mem_cons.mpr (Or.inr hmem), hlt, hq⟩
      · rintro ⟨hmem, hlt, rfl⟩
        rcases eq_or_ne i j with rfl | hne
        · exact absurd hlt (by omega)
        · exact ⟨(List.mem_cons.mp hmem).resolve_left hne, hlt, rfl⟩

theorem seqsForSlot_append (i : Fin 8) (a b : List (Fin 8 × Nat)) :
    seqsForSlot i (a ++ b) = seqsForSlot i a ++ seqsForSlot i b := by
  simp [seqsForSlot, List.filter_append]

theorem seqsForSlot_cons (i : Fin 8) (w : Fin 8 × Nat)
    (ws : List (Fin 8 × Nat)) :
    seqsForSlot i (w :: ws) =
      if w.1 = i then w.2 :: seqsForSlot i ws else seqsForSlot i ws := by
  by_cases h : w.1 = i
  · simp [seqsForSlot, List.filter_cons, h]
  · simp [seqsForSlot, List.filter_cons, h]

theorem harvestList_seqsForSlot (s : StationData) :
    ∀ (l : List (Fin 8)), l.Nodup → ∀ (ls : Fin 8 → Nat) (i : Fin 8),
      seqsForSlot i (harvestList s ls l).writes =
        if i ∈ l ∧ ls i < (s.slots i).seq then [(s.slots i).seq] else [] := by
  intro l
  induction l with
  | nil => intro _ ls i; simp [harvestList, seqsForSlot]
  | cons j rest ih =>
    intro hnd ls i
    have hj : j ∉ rest := (List.nodup_cons.mp hnd).1
    have hrest : rest.Nodup := (List.nodup_cons.mp hnd).2
    simp only [harvestList]
    split
    · rename_i hgt
      rw [seqsForSlot_cons, ih hrest]
      rcases eq_or_ne i j with rfl | hne
      · rw [if_pos rfl, if_neg (fun h => hj h.1),
          if_pos ⟨List.mem_cons_self _ _, hgt⟩]
      · rw [if_neg (Ne.symm hne)]
        simp [Function.update_noteq hne, List.mem_cons, hne]
    · rename_i hle
      rw [ih hrest]
      rcases eq_or_ne i j with rfl | hne
      · rw [if_neg (fun h => hj h.1), if_neg (fun h => hle h.2)]
      · simp [List.mem_cons, hne]

theorem runHarvests_chain (i : Fin 8) :
    ∀ (states : List StationData) (ls : Fin 8 → Nat),
      List.Chain (· < ·) (ls i) (seqsForSlot i (runHarvests ls states).2) := by
  intro states
  induction states with
  | nil => intro ls; simp [runHarvests, seqsForSlot]
  | cons s rest ih =>
    intro ls
    show List.Chain (· < ·) (ls i) (seqsForSlot i
      ((harvest s ls).writes ++ (runHarvests (harvest s ls).lastSeen rest).2))
    rw [seqsForSlot_append, harvest,
      harvestList_seqsForSlot s _ (List.nodup_finRange 8) ls i]
    have hlast : (harvest s ls).lastSeen i = max (ls i) ((s.slots i).seq) := by
      rw [harvest, harvestList_lastSeen s _ (List.nodup_finRange 8) ls i,
        if_pos (List.mem_finRange i)]
    by_cases hlt : ls i < (s.slots i).seq
    · rw [if_pos ⟨List.mem_finRange i, hlt⟩, List.singleton_append]
      refine List.Chain.cons hlt ?_
      have h := ih (harvest s ls).lastSeen
      rwa [hlast, Nat.max_eq_right (Nat.le_of_lt hlt)] at h
    · rw [if_neg (fun h => hlt h.2), List.nil_append]
      have h := ih (harvest s ls).lastSeen
      rwa [hlast, Nat.max_eq_left (Nat.le_of_not_lt hlt)] at h

theorem harvest_writes_mem (s : StationData) (ls : Fin 8 → Nat) (i : Fin 8)
    (q : Nat) :
    ((i, q) ∈ (harvest s ls).writes ↔
      ls i < (s.slots i).seq ∧ q = (s.slots i).seq) := by
  rw [harvest, harvestList_writes_mem s _ (List.nodup_finRange 8) ls i q]
  simp [List.mem_finRange]

theorem harvest_lastSeen (s : StationData) (ls : Fin 8 → Nat) (i : Fin 8) :
    (harvest s ls).lastSeen i = max (ls i) ((s.slots i).seq) := by
  rw [harvest, harvestList_lastSeen s _ (List.nodup_finRange 8) ls i,
    if_pos (List.mem_finRange i)]

theorem harvest_station (s : StationData) (ls : Fin 8 → Nat) :
    (harvest s ls).station = s :=
  harvestList_station s _ ls

theorem harvest_lines (s : StationData) (ls : Fin 8 → Nat) :
    (harvest s ls).lines = (harvest s ls).writes.map
      (fun w => marshalSlotJSONL s [] w.1 w.2) :=
  harvestList_lines s _ ls

theorem harvest_count (s : StationData) (ls : Fin 8 → Nat) :
    (harvest s ls).count = (harvest s ls).writes.length :=
  harvestList_count s _ ls

/-- C2: for a fixed station and slot, the `seq` values handed to the
writer across any sequence of `Harvest` calls (each call observing an
arbitrary snapshot of the station's memory) form a strictly increasing
sequence: each record is emitted only when the loaded snapshot exceeds
`last_seen[i]`, which is then raised to that snapshot. -/
theorem C2_perSlot_strictly_increasing (ls : Fin 8 → Nat)
    (states : List StationData) (i : Fin 8) :
    List.Chain' (· < ·) (seqsForSlot i (runHarvests ls states).2) :=
  (show List.Chain' (· < ·)
      (ls i :: seqsForSlot i (runHarvests ls states).2) from
    runHarvests_chain i states ls).tail

/-- C3: the `seq` value in an emitted record is exactly the snapshot the
harvester loaded: `MarshalSlotJSONL` depends only on the caller-supplied
`observedSeq` (overwriting `slot.Seq` does not change its output), and
every `WriteSlot` call issued by `Harvest` carries the loaded snapshot of
`slot.Seq`. -/
theorem C3_snapshot_fidelity :
    (∀ (s : StationData) (i : Fin 8) (q v : Nat),
      marshalSlotJSONL (setSlotSeq s i v) [] i q = marshalSlotJSONL s [] i q) ∧
    (∀ (s : StationData) (ls : Fin 8 → Nat) (i : Fin 8) (q : Nat),
      (i, q) ∈ (harvest s ls).writes → q = (s.slots i).seq) := by
  constructor
  · intro s i q v
    simp [marshalSlotJSONL, setSlotSeq, Function.update_same]
  · intro s ls i q hm
    exact ((harvest_writes_mem s ls i q).mp hm).2

theorem C3_witness :
    (1 : Nat) =
      (((⟨⟨1, 2, false⟩, fun _ => ⟨9, 8, 7, 1, true⟩⟩ : StationData)).slots
        0).seq :=
  C3_snapshot_fidelity.2 _ (fun _ => 0) 0 1 (by decide)

/-- C9: harvesting an unchanged station is a no-op: if every slot's
`seq` snapshot is at most the corresponding `last_seen` entry, `Harvest`
returns 0, writes nothing, and leaves `last_seen` unchanged. -/
theorem C9_unchanged_noop (s : StationData) (ls : Fin 8 → Nat)
    (h : ∀ i, (s.slots i).seq ≤ ls i) :
    (harvest s ls).count = 0 ∧ (harvest s ls).writes = [] ∧
    (harvest s ls).lines = [] ∧ ∀ i, (harvest s ls).lastSeen i = ls i := by
  have hw : (harvest s ls).writes = [] := by
    rw [List.eq_nil_iff_forall_not_mem]
    rintro ⟨i, q⟩ hm
    have h2 := ((harvest_writes_mem s ls i q).mp hm).1
    have h3 := h i
    omega
  refine ⟨?_, hw, ?_, ?_⟩
  · rw [harvest_count, hw]; rfl
  · rw [harvest_lines, hw]; rfl
  · intro i
    rw [harvest_lastSeen, Nat.max_eq_left (h i)]

theorem C9_witness :
    (harvest ⟨⟨1, 2, false⟩, fun _ => ⟨9, 8, 7, 0, true⟩⟩ (fun _ => 0)).count
        = 0 ∧
    (harvest ⟨⟨1, 2, false⟩, fun _ => ⟨9, 8, 7, 0, true⟩⟩
        (fun _ => 0)).writes = [] ∧
    (harvest ⟨⟨1, 2, false⟩, fun _ => ⟨9, 8, 7, 0, true⟩⟩
        (fun _ => 0)).lines = [] ∧
    ∀ i, (harvest ⟨⟨1, 2, false⟩, fun _ => ⟨9, 8, 7, 0, true⟩⟩
        (fun _ => 0)).lastSeen i = (fun _ : Fin 8 => (0 : Nat)) i :=
  C9_unchanged_noop ⟨⟨1, 2, false⟩, fun _ => ⟨9, 8, 7, 0, true⟩⟩ (fun _ => 0)
    (fun _ => Nat.le_refl 0)

/-- C10: the harvest path is read-only on the shared region and only
advances bookkeeping: the station memory is returned untouched, each
`last_seen` entry becomes the max of its old value and the loaded
snapshot (so it only ever increases, and only entries whose slot
advanced change), exactly the advanced slots are emitted, and the lines
written are the serializations of the emitted tuples. -/
theorem C10_harvest_frame (s : StationData) (ls : Fin 8 → Nat) :
    (harvest s ls).station = s ∧
    (∀ i, (harvest s ls).lastSeen i = max (ls i) ((s.slots i).seq)) ∧
    (∀ i, ls i ≤ (harvest s ls).lastSeen i) ∧
    (∀ i, (s.slots i).seq ≤ ls i → (harvest s ls).lastSeen i = ls i) ∧
    (∀ i q, ((i, q) ∈ (harvest s ls).writes ↔
      ls i < (s.slots i).seq ∧ q = (s.slots i).seq)) ∧
    (harvest s ls).lines = (harvest s ls).writes.map
      (fun w => marshalSlotJSONL s [] w.1 w.2) := by
  refine ⟨harvest_station s ls, fun i => harvest_lastSeen s ls i, ?_, ?_,
    fun i q => harvest_writes_mem s ls i q, harvest_lines s ls⟩
  · intro i
    rw [harvest_lastSeen]
    exact Nat.le_max_left _ _
  · intro i h
    rw [harvest_lastSeen, Nat.max_eq_left h]

/-! ### Decimal rendering lemmas -/

theorem utoaAux_eq (v : Nat) (acc : List Char) :
    utoaAux v acc = if v < 10 then decChars.getD v '0' :: acc
      else utoaAux (v / 10) (decChars.getD (v % 10) '0' :: acc) := by
  rw [utoaAux]
  by_cases h : v < 10 <;> simp [h]

theorem utoaAux_append (v : Nat) :
    ∀ acc, utoaAux v acc = utoaAux v [] ++ acc := by
  induction v using Nat.strong_induction_on with
  | _ v ih =>
    intro acc
    by_cases h : v < 10
    · rw [utoaAux_eq, if_pos h, utoaAux_eq v [], if_pos h]
      simp
    · rw [utoaAux_eq, if_neg h, utoaAux_eq v [], if_neg h,
        ih (v / 10) (Nat.div_lt_self (by omega) (by omega)),
        ih (v / 10) (Nat.div_lt_self (by omega) (by omega))
          (decChars.getD (v % 10) '0' :: [])]
      simp

theorem utoaAux_ne_nil (v : Nat) : utoaAux v [] ≠ [] := by
  rw [utoaAux_eq]
  by_cases h : v < 10
  · simp [h]
  · rw [if_neg h, utoaAux_append]
    simp

theorem decDigit_facts :
    ∀ d, d < 10 → (decChars.getD d '0').isDigit = true ∧
      (decChars.getD d '0').toNat - 48 = d ∧
      ((decChars.getD d '0') = '0' → d = 0) := by
  decide

theorem utoaAux_digits (v : Nat) : ∀ c ∈ utoaAux v [], c.isDigit = true := by
  induction v using Nat.strong_induction_on with
  | _ v ih =>
    rw [utoaAux_eq]
    by_cases h : v < 10
    · rw [if_pos h]
      intro c hc
      rw [List.mem_singleton.mp hc]
      exact (decDigit_facts v h).1
    · rw [if_neg h, utoaAux_append]
      intro c hc
      rcases List.mem_append.mp hc with hc | hc
      · exact ih (v / 10) (Nat.div_lt_self (by omega) (by omega)) c hc
      · rw [List.mem_singleton.mp hc]
        exact (decDigit_facts (v % 10) (Nat.mod_lt _ (by omega))).1

theorem parseDec_utoaAux_general (v : Nat) :
    ∀ a, List.foldl (fun a c => a * 10 + (c.toNat - 48)) a (utoaAux v []) =
      a * 10 ^ (utoaAux v []).length + v := by
  induction v using Nat.strong_induction_on with
  | _ v ih =>
    intro a
    rw [utoaAux_eq]
    by_cases h : v < 10
    · rw [if_pos h]
      simp only [List.foldl_cons, List.foldl_nil, List.length_cons,
        List.length_nil, zero_add, pow_one, (decDigit_facts v h).2.1]
    · have hlt : v / 10 < v := Nat.div_lt_self (by omega) (by omega)
      rw [if_neg h, utoaAux_append, List.foldl_append, ih (v / 10) hlt a]
      simp only [List.foldl_cons, List.foldl_nil, List.length_append,
        List.length_cons, List.length_nil,
        (decDigit_facts (v % 10) (Nat.mod_lt _ (by omega))).2.1]
      rw [pow_succ, ← Nat.mul_assoc]
      have hd := Nat.div_add_mod v 10
      generalize a * 10 ^ (utoaAux (v / 10) []).length = b
      omega

theorem parseDec_utoaAux (v : Nat) : parseDec (utoaAux v []) = v := by
  rw [parseDec, parseDec_utoaAux_general v 0]
  simp

theorem utoaAux_head (v : Nat) :
    (utoaAux v []).head? = some '0' → utoaAux v [] = ['0'] := by
  induction v using Nat.strong_induction_on with
  | _ v ih =>
    intro hh
    rw [utoaAux_eq] at hh ⊢
    by_cases h : v < 10
    · rw [if_pos h] at hh ⊢
      have h0 : decChars.getD v '0' = '0' := by
        simpa using hh
      have hv := (decDigit_facts v h).2.2 h0
      subst hv
      rw [h0]
    · exfalso
      rw [if_neg h, utoaAux_append] at hh
      obtain ⟨x, xs, hxs⟩ := List.exists_cons_of_ne_nil (utoaAux_ne_nil (v / 10))
      rw [hxs] at hh
      simp only [List.cons_append, List.head?_cons, Option.some.injEq] at hh
      have hlt : v / 10 < v := Nat.div_lt_self (by omega) (by omega)
      have heq := ih (v / 10) hlt (by rw [hxs, hh]; rfl)
      have hv10 : v / 10 = 0 := by
        have := parseDec_utoaAux (v / 10)
        rw [heq] at this
        simpa [parseDec] using this.symm
      omega

theorem isDecimalRepOf_utoaAux (v : Nat) : isDecimalRepOf (utoaAux v []) v :=
  ⟨utoaAux_ne_nil v, utoaAux_digits v, utoaAux_head v, parseDec_utoaAux v⟩

/-! ### Hex rendering lemmas -/

theorem appendHexLoop_length (v : Nat) :
    ∀ n, (appendHexLoop v n).length = n := by
  intro n
  induction n with
  | zero => rfl
  | succ n ih => simp [appendHexLoop, ih]

theorem getD_mem_of_mem (l : List Char) (k : Nat) (d : Char) (hd : d ∈ l) :
    l.getD k d ∈ l := by
  have he : l.getD k d = (l[k]?).getD d := by simp [List.getD]
  rw [he]
  rcases h : l[k]? with _ | x
  · simpa using hd
  · simp only [Option.getD_some]
    exact List.getElem?_mem h

theorem appendHexLoop_mem (v : Nat) :
    ∀ n, ∀ c ∈ appendHexLoop v n, c ∈ hexChars := by
  intro n
  induction n with
  | zero => intro c hc; cases hc
  | succ n ih =>
    intro c hc
    rcases List.mem_cons.mp hc with rfl | hc
    · exact getD_mem_of_mem _ _ _ (by decide)
    · exact ih c hc

theorem hexVal_getD : ∀ x, x < 16 → hexVal (hexChars.getD x '0') = x := by
  decide

theorem and_fifteen (x : Nat) : x &&& 15 = x % 16 := by
  have h := Nat.and_pow_two_sub_one_eq_mod x 4
  norm_num at h
  exact h

theorem shiftRight_mul_four (v n : Nat) : v >>> (n * 4) = v / 16 ^ n := by
  rw [Nat.shiftRight_eq_div_pow]
  congr 1
  rw [Nat.mul_comm, pow_mul]
  norm_num

theorem parseHex_appendHexLoop_general (v : Nat) :
    ∀ n a, List.foldl (fun a c => a * 16 + hexVal c) a (appendHexLoop v n) =
      a * 16 ^ n + v % 16 ^ n := by
  intro n
  induction n with
  | zero => intro a; simp [appendHexLoop, Nat.mod_one]
  | succ n ih =>
    intro a
    simp only [appendHexLoop, List.foldl_cons]
    rw [ih, hexVal_getD _ (by rw [and_fifteen]; exact Nat.mod_lt _ (by omega)),
      and_fifteen, shiftRight_mul_four, pow_succ, Nat.mod_mul]
    ring

theorem parseHex_appendHexLoop (v : Nat) :
    parseHex (appendHexLoop v 16) = v % 2 ^ 64 := by
  rw [parseHex, parseHex_appendHexLoop_general v 16 0]
  norm_num

/-! ### Serializer decomposition and parser stepping lemmas -/

theorem marshal_decomp (s : StationData) (i : Fin 8) (q : Nat) :
    marshalSlotJSONL s [] i q =
      "\x7b\"probe_id\":".data ++ (utoaAux s.header.probeID [] ++
        (",\"tid\":".data ++ (utoaAux (s.slots i).tid [] ++
        (",\"addr\":\"".data ++ ('0' :: 'x' ::
          (appendHexLoop (s.slots i).addr 16 ++
        ("\",\"seq\":".data ++ (utoaAux q [] ++
        (",\"is_active\":".data ++
        ((if (s.slots i).isActive then "true".data else "false".data) ++
        (",\"ts\":".data ++ (utoaAux (s.slots i).timestamp [] ++
        "\x7d\n".data)))))))))))) := by
  simp [marshalSlotJSONL, appendUint, appendHex, List.append_assoc]

theorem expectLit_append (lit rest : List Char) :
    expectLit lit (lit ++ rest) = some rest := by
  simp [expectLit, List.take_left' rfl, List.drop_left' rfl]

theorem takeWhile_digits_append (p : Char → Bool) :
    ∀ (ds : List Char), (∀ x ∈ ds, p x = true) → ∀ (c : Char), p c = false →
      ∀ (rest : List Char),
        ((ds ++ c :: rest).takeWhile p = ds ∧
          (ds ++ c :: rest).dropWhile p = c :: rest) := by
  intro ds
  induction ds with
  | nil =>
    intro _ c hc rest
    simp [List.takeWhile_cons, List.dropWhile_cons, hc]
  | cons d ds ih =>
    intro hds c hc rest
    have hd : p d = true := hds d (List.mem_cons_self _ _)
    have hrec := ih (fun x hx => hds x (List.mem_cons_of_mem _ hx)) c hc rest
    simp [List.takeWhile_cons, List.dropWhile_cons, hd, hrec.1, hrec.2]

theorem parseDecField_utoa (v : Nat) (c : Char) (rest : List Char)
    (hc : c.isDigit = false) :
    parseDecField (utoaAux v [] ++ c :: rest) = some (v, c :: rest) := by
  have hspan := takeWhile_digits_append (fun c => c.isDigit) (utoaAux v [])
    (utoaAux_digits v) c hc rest
  simp only [parseDecField, hspan.1, hspan.2, if_neg (utoaAux_ne_nil v),
    parseDec_utoaAux]

theorem parseDecField_before_tid (v : Nat) (y : List Char) :
    parseDecField (utoaAux v [] ++
        ([',', '"', 't', 'i', 'd', '"', ':'] ++ y)) =
      some (v, [',', '"', 't', 'i', 'd', '"', ':'] ++ y) :=
  parseDecField_utoa v ',' (['"', 't', 'i', 'd', '"', ':'] ++ y) (by decide)

theorem parseDecField_before_addr (v : Nat) (y : List Char) :
    parseDecField (utoaAux v [] ++
        ([',', '"', 'a', 'd', 'd', 'r', '"', ':', '"'] ++ y)) =
      some (v, [',', '"', 'a', 'd', 'd', 'r', '"', ':', '"'] ++ y) :=
  parseDecField_utoa v ','
    (['"', 'a', 'd', 'd', 'r', '"', ':', '"'] ++ y) (by decide)

theorem parseDecField_before_isActive (v : Nat) (y : List Char) :
    parseDecField (utoaAux v [] ++
        ([',', '"', 'i', 's', '_', 'a', 'c', 't', 'i', 'v', 'e', '"', ':']
          ++ y)) =
      some (v, [',', '"', 'i', 's', '_', 'a', 'c', 't', 'i', 'v', 'e', '"',
        ':'] ++ y) :=
  parseDecField_utoa v ','
    (['"', 'i', 's', '_', 'a', 'c', 't', 'i', 'v', 'e', '"', ':'] ++ y)
    (by decide)

theorem parseDecField_at_end (v : Nat) :
    parseDecField (utoaAux v [] ++ ['\x7d', '\n']) =
      some (v, ['\x7d', '\n']) :=
  parseDecField_utoa v '\x7d' ['\n'] (by decide)

theorem expectLit_addr (w : List Char) :
    expectLit [',', '"', 'a', 'd', 'd', 'r', '"', ':', '"', '0', 'x']
      ([',', '"', 'a', 'd', 'd', 'r', '"', ':', '"'] ++ ('0' :: 'x' :: w)) =
      some w :=
  expectLit_append [',', '"', 'a', 'd', 'd', 'r', '"', ':', '"', '0', 'x'] w

theorem expectLit_end :
    expectLit ['\x7d', '\n'] ['\x7d', '\n'] = some [] :=
  expectLit_append ['\x7d', '\n'] []

theorem parseHex16_appendHexLoop (v : Nat) (rest : List Char) :
    parseHex16 (appendHexLoop v 16 ++ rest) = some (v % 2 ^ 64, rest) := by
  simp only [parseHex16, List.take_left' (appendHexLoop_length v 16),
    List.drop_left' (appendHexLoop_length v 16)]
  rw [if_pos ⟨appendHexLoop_length v 16, appendHexLoop_mem v 16⟩,
    parseHex_appendHexLoop]

theorem parseBoolField_append (b : Bool) (rest : List Char) :
    parseBoolField
        ((if b then ['t', 'r', 'u', 'e'] else ['f', 'a', 'l', 's', 'e'])
          ++ rest) =
      some (b, rest) := by
  cases b
  · rfl
  · rfl

theorem newline_not_mem_utoaAux (v : Nat) : '\n' ∉ utoaAux v [] :=
  fun h => absurd (utoaAux_digits v '\n' h) (by decide)

theorem newline_not_mem_hexLoop (v : Nat) : '\n' ∉ appendHexLoop v 16 :=
  fun h => absurd (appendHexLoop_mem v 16 '\n' h) (by decide)

theorem newline_not_mem_bool (b : Bool) :
    '\n' ∉ (if b then "true".data else "false".data) := by
  cases b
  · decide
  · decide

theorem optionBind_some {α β : Type} (a : α) (f : α → Option β) :
    Option.bind (some a) f = f a := rfl

/-- C5: every serialized record is exactly one line of the form
`\x7b"probe_id":P,"tid":T,"addr":"0x…","seq":Q,"is_active":B,"ts":S\x7d`
followed by a single LF: six fields in this order, the four numeric
fields rendered as canonical decimal, `addr` as `0x` plus 16 lowercase
hex digits, `is_active` as the JSON boolean, and no other characters
(the line contains exactly one LF, at its end). -/
theorem C5_record_shape (s : StationData) (i : Fin 8) (q : Nat) :
    ∃ P T A Q B S : List Char,
      marshalSlotJSONL s [] i q =
        "\x7b\"probe_id\":".data ++ P ++ ",\"tid\":".data ++ T ++
          ",\"addr\":\"".data ++ A ++ "\",\"seq\":".data ++ Q ++
          ",\"is_active\":".data ++ B ++ ",\"ts\":".data ++ S ++
          "\x7d\n".data ∧
      isDecimalRepOf P s.header.probeID ∧
      isDecimalRepOf T (s.slots i).tid ∧
      A.length = 18 ∧ A.take 2 = "0x".data ∧
      (∀ c ∈ A.drop 2, c ∈ hexChars) ∧
      isDecimalRepOf Q q ∧
      ((B = "true".data ∧ (s.slots i).isActive = true) ∨
        (B = "false".data ∧ (s.slots i).isActive = false)) ∧
      isDecimalRepOf S (s.slots i).timestamp ∧
      (∃ body : List Char,
        marshalSlotJSONL s [] i q = body ++ ['\n'] ∧ '\n' ∉ body) := by
  refine ⟨utoaAux s.header.probeID [], utoaAux (s.slots i).tid [],
    '0' :: 'x' :: appendHexLoop (s.slots i).addr 16, utoaAux q [],
    (if (s.slots i).isActive then "true".data else "false".data),
    utoaAux (s.slots i).timestamp [], ?_, isDecimalRepOf_utoaAux _,
    isDecimalRepOf_utoaAux _, ?_, rfl, ?_, isDecimalRepOf_utoaAux _, ?_,
    isDecimalRepOf_utoaAux _, ?_⟩
  · rw [marshal_decomp]
    simp [List.append_assoc]
  · simp [appendHexLoop_length]
  · intro c hc
    exact appendHexLoop_mem _ 16 c hc
  · by_cases hb : (s.slots i).isActive
    · exact Or.inl ⟨by rw [if_pos hb], hb⟩
    · exact Or.inr ⟨by rw [if_neg hb], by simpa using hb⟩
  · refine ⟨"\x7b\"probe_id\":".data ++ (utoaAux s.header.probeID [] ++
      (",\"tid\":".data ++ (utoaAux (s.slots i).tid [] ++
      (",\"addr\":\"".data ++ ('0' :: 'x' ::
        (appendHexLoop (s.slots i).addr 16 ++
      ("\",\"seq\":".data ++ (utoaAux q [] ++
      (",\"is_active\":".data ++
      ((if (s.slots i).isActive then "true".data else "false".data) ++
      (",\"ts\":".data ++ (utoaAux (s.slots i).timestamp [] ++
      ['\x7d'])))))))))))), ?_, ?_⟩
    · rw [marshal_decomp]
      simp [List.append_assoc]
    · by_cases hb : (s.slots i).isActive <;>
        simp +decide [hb, newline_not_mem_utoaAux, newline_not_mem_hexLoop]

/-- C6: serialization round-trips: parsing the line produced by
`MarshalSlotJSONL` returns exactly the six input field values (for a
64-bit `addr`, as the probe writes); the `addr` rendering is `0x` plus
exactly 16 hex digits (18 characters), and reading the 16 hex digits of
`appendHex` back as base 16 recovers the value modulo 2^64, hence the
value itself for any u64. -/
theorem C6_roundtrip (s : StationData) (i : Fin 8) (q : Nat)
    (h : (s.slots i).addr < 2 ^ 64) :
    parseRecord (marshalSlotJSONL s [] i q) =
      some (s.header.probeID, (s.slots i).tid, (s.slots i).addr, q,
        (s.slots i).isActive, (s.slots i).timestamp) ∧
    (∀ v : Nat, parseHex (appendHexLoop v 16) = v % 2 ^ 64) ∧
    (appendHex [] (s.slots i).addr).length = 18 := by
  refine ⟨?_, fun v => parseHex_appendHexLoop v, ?_⟩
  · rw [marshal_decomp]
    simp only [parseRecord, Option.bind_eq_bind, optionBind_some,
      expectLit_append, expectLit_addr, expectLit_end,
      parseDecField_before_tid, parseDecField_before_addr,
      parseDecField_before_isActive, parseDecField_at_end,
      parseHex16_appendHexLoop, parseBoolField_append]
    rw [if_pos trivial, Nat.mod_eq_of_lt h]
  · simp [appendHex, appendHexLoop_length]

/-! ### Engine scan lemmas -/

theorem doScanList_congr (st st' : Nat → StationData) :
    ∀ (l : List Nat), (∀ j ∈ l, st j = st' j) → ∀ ls,
      doScanList st l ls = doScanList st' l ls := by
  intro l
  induction l with
  | nil => intro _ ls; rfl
  | cons j rest ih =>
    intro h ls
    simp only [doScanList]
    rw [h j (List.mem_cons_self _ _),
      ih (fun x hx => h x (List.mem_cons_of_mem _ hx))]

theorem doScanList_lastSeen_frame (st : Nat → StationData) :
    ∀ (l : List Nat) (ls : Nat → Fin 8 → Nat) (j : Nat), j ∉ l →
      (doScanList st l ls).lastSeen j = ls j := by
  intro l
  induction l with
  | nil => intro ls j _; rfl
  | cons i rest ih =>
    intro ls j hj
    have hne : j ≠ i := fun h => hj (h ▸ List.mem_cons_self _ _)
    have hrest : j ∉ rest := fun h => hj (List.mem_cons_of_mem _ h)
    simp only [doScanList]
    rw [ih _ j hrest, Function.update_noteq hne]

theorem doScanList_writes_station (st : Nat → StationData) :
    ∀ (l : List Nat) (ls : Nat → Fin 8 → Nat) (w : Nat × Fin 8 × Nat),
      w ∈ (doScanList st l ls).writes → w.1 ∈ l := by
  intro l
  induction l with
  | nil => intro ls w hw; cases hw
  | cons i rest ih =>
    intro ls w hw
    simp only [doScanList] at hw
    rcases List.mem_append.mp hw with hw | hw
    · obtain ⟨x, _, rfl⟩ := List.mem_map.mp hw
      exact List.mem_cons_self _ _
    · exact List.mem_cons_of_mem _ (ih _ w hw)

/-- C7: each scan pass clamps the loaded `allocated_count` to
`max_stations` and touches only stations `[0, clamped)`: the pass result
is unchanged under any modification of stations at indices `≥
max_stations`, `lastSeen` entries at indices `≥ max_stations` are never
written, and every emitted record's station index is below both
`max_stations` and the loaded `allocated_count`. -/
theorem C7_clamp_bounds (maxS alloc : Nat) (ls : Nat → Fin 8 → Nat) :
    (∀ st st' : Nat → StationData,
      (∀ j, j < maxS → st j = st' j) →
        doScan maxS alloc st ls = doScan maxS alloc st' ls) ∧
    (∀ (st : Nat → StationData) (j : Nat), maxS ≤ j →
      (doScan maxS alloc st ls).lastSeen j = ls j) ∧
    (∀ (st : Nat → StationData) (w : Nat × Fin 8 × Nat),
      w ∈ (doScan maxS alloc st ls).writes → w.1 < maxS ∧ w.1 < alloc) := by
  have hcl : (if alloc > maxS then maxS else alloc) ≤ maxS ∧
      (if alloc > maxS then maxS else alloc) ≤ alloc := by
    split <;> omega
  refine ⟨?_, ?_, ?_⟩
  · intro st st' h
    simp only [doScan]
    exact doScanList_congr st st' _
      (fun j hj => h j (lt_of_lt_of_le (List.mem_range.mp hj) hcl.1)) ls
  · intro st j hj
    simp only [doScan]
    refine doScanList_lastSeen_frame st _ ls j (fun hm => ?_)
    have := List.mem_range.mp hm
    omega
  · intro st w hw
    simp only [doScan] at hw
    have hm := List.mem_range.mp (doScanList_writes_station st _ ls w hw)
    omega

/-! ### Hot-loop theorems -/

/-- C4: in any iteration whose first scan makes zero progress, the loop
immediately flushes the writer, stores 1 into `tracer_sleeping`, re-runs
the scan once, and then either stores 0 and resumes (double-check made
progress) or performs the blocking socket read followed by the store of
0; and every socket read in the iteration happens while the most recent
store to `tracer_sleeping` was 1 (the engine never blocks with the flag
at 0). -/
theorem C4_sleep_arming (maxS : Nat) (ls : Nat → Fin 8 → Nat)
    (r1 r2 : Region) (readRes : Option Nat)
    (h : (doScan maxS r1.allocatedCount r1.stations ls).total = 0) :
    ((hotLoopIter maxS ls r1 r2 readRes).actions =
      [.scan 0, .flush, .setSleeping 1,
        .scan (doScan maxS r2.allocatedCount r2.stations
          (doScan maxS r1.allocatedCount r1.stations ls).lastSeen).total] ++
      (if 0 < (doScan maxS r2.allocatedCount r2.stations
          (doScan maxS r1.allocatedCount r1.stations ls).lastSeen).total
        then [.setSleeping 0]
        else [.sockRead readRes, .setSleeping 0])) ∧
    (∀ (k : Nat) (res : Option Nat),
      (hotLoopIter maxS ls r1 r2 readRes).actions[k]? =
          some (.sockRead res) →
        sleepAfter 0 ((hotLoopIter maxS ls r1 r2 readRes).actions.take k)
          = 1) := by
  have hact : (hotLoopIter maxS ls r1 r2 readRes).actions =
      [.scan 0, .flush, .setSleeping 1,
        .scan (doScan maxS r2.allocatedCount r2.stations
          (doScan maxS r1.allocatedCount r1.stations ls).lastSeen).total] ++
      (if 0 < (doScan maxS r2.allocatedCount r2.stations
          (doScan maxS r1.allocatedCount r1.stations ls).lastSeen).total
        then [.setSleeping 0]
        else [.sockRead readRes, .setSleeping 0]) := by
    simp only [hotLoopIter, h]
    rw [if_neg (lt_irrefl 0)]
    by_cases h2 : 0 < (doScan maxS r2.allocatedCount r2.stations
        (doScan maxS r1.allocatedCount r1.stations ls).lastSeen).total
    · rw [if_pos h2, if_pos h2]
      rfl
    · rw [if_neg h2, if_neg h2]
      rfl
  refine ⟨hact, ?_⟩
  intro k res hk
  rw [hact] at hk ⊢
  by_cases h2 : 0 < (doScan maxS r2.allocatedCount r2.stations
      (doScan maxS r1.allocatedCount r1.stations ls).lastSeen).total
  · rw [if_pos h2] at hk
    rcases k with _ | _ | _ | _ | _ | k
    · simp at hk
    · simp at hk
    · simp at hk
    · simp at hk
    · simp at hk
    · simp at hk
  · rw [if_neg h2] at hk ⊢
    rcases k with _ | _ | _ | _ | _ | _ | k
    · simp at hk
    · simp at hk
    · simp at hk
    · simp at hk
    · rfl
    · simp at hk
    · simp at hk

/-- C8: when the blocking socket read returns an error or zero bytes,
the iteration stores 0 into `tracer_sleeping` as its last action and
exits the hot loop (back to the accept state), leaving the flag at 0 for
the next probe. -/
theorem C8_disconnect_clears (maxS : Nat) (ls : Nat → Fin 8 → Nat)
    (r1 r2 : Region) (readRes : Option Nat)
    (h1 : (doScan maxS r1.allocatedCount r1.stations ls).total = 0)
    (h2 : (doScan maxS r2.allocatedCount r2.stations
      (doScan maxS r1.allocatedCount r1.stations ls).lastSeen).total = 0)
    (hr : readFailed readRes = true) :
    (hotLoopIter maxS ls r1 r2 readRes).exited = true ∧
    (hotLoopIter maxS ls r1 r2 readRes).actions.getLast? =
      some (.setSleeping 0) ∧
    sleepAfter 0 (hotLoopIter maxS ls r1 r2 readRes).actions = 0 := by
  simp only [hotLoopIter, h1, h2]
  rw [if_neg (lt_irrefl 0), if_neg (lt_irrefl 0)]
  exact ⟨hr, rfl, rfl⟩

/-! ### Concrete witnesses -/

theorem C10_witness :
    (harvest ⟨⟨1, 2, false⟩, fun _ => ⟨9, 8, 7, 3, true⟩⟩
        (fun _ => 5)).lastSeen 0 = 5 :=
  (C10_harvest_frame ⟨⟨1, 2, false⟩, fun _ => ⟨9, 8, 7, 3, true⟩⟩
    (fun _ => 5)).2.2.2.1 0 (by decide)

theorem C5_witness :
    ∃ P T A Q B S : List Char,
      marshalSlotJSONL ⟨⟨3, 0, false⟩, fun _ => ⟨5, 6, 7, 8, true⟩⟩ [] 0 9 =
        "\x7b\"probe_id\":".data ++ P ++ ",\"tid\":".data ++ T ++
          ",\"addr\":\"".data ++ A ++ "\",\"seq\":".data ++ Q ++
          ",\"is_active\":".data ++ B ++ ",\"ts\":".data ++ S ++
          "\x7d\n".data ∧
      isDecimalRepOf P 3 ∧ isDecimalRepOf T 6 ∧
      A.length = 18 ∧ A.take 2 = "0x".data ∧
      (∀ c ∈ A.drop 2, c ∈ hexChars) ∧
      isDecimalRepOf Q 9 ∧
      ((B = "true".data ∧ true = true) ∨ (B = "false".data ∧ true = false)) ∧
      isDecimalRepOf S 5 ∧
      (∃ body : List Char,
        marshalSlotJSONL ⟨⟨3, 0, false⟩, fun _ => ⟨5, 6, 7, 8, true⟩⟩ [] 0 9
          = body ++ ['\n'] ∧ '\n' ∉ body) :=
  C5_record_shape ⟨⟨3, 0, false⟩, fun _ => ⟨5, 6, 7, 8, true⟩⟩ 0 9

theorem C6_witness :
    parseRecord (marshalSlotJSONL ⟨⟨12, 0, false⟩,
        fun _ => ⟨1000, 17, 48879, 3, true⟩⟩ [] 0 42) =
      some (12, 17, 48879, 42, true, 1000) :=
  (C6_roundtrip ⟨⟨12, 0, false⟩, fun _ => ⟨1000, 17, 48879, 3, true⟩⟩ 0 42
    (by decide)).1

theorem C7_witness :
    (doScan 1 5 (fun _ => ⟨⟨0, 0, false⟩, fun _ => ⟨0, 0, 0, 0, false⟩⟩)
        (fun _ _ => 0)).lastSeen 3 = (fun _ : Fin 8 => (0 : Nat)) :=
  (C7_clamp_bounds 1 5 (fun _ _ => 0)).2.1
    (fun _ => ⟨⟨0, 0, false⟩, fun _ => ⟨0, 0, 0, 0, false⟩⟩) 3 (by omega)

theorem C4_witness :
    (hotLoopIter 0 (fun _ _ => 0)
        ⟨0, fun _ => ⟨⟨0, 0, false⟩, fun _ => ⟨0, 0, 0, 0, false⟩⟩⟩
        ⟨0, fun _ => ⟨⟨0, 0, false⟩, fun _ => ⟨0, 0, 0, 0, false⟩⟩⟩
        none).actions =
      [.scan 0, .flush, .setSleeping 1, .scan 0] ++
        [.sockRead none, .setSleeping 0] :=
  (C4_sleep_arming 0 (fun _ _ => 0)
    ⟨0, fun _ => ⟨⟨0, 0, false⟩, fun _ => ⟨0, 0, 0, 0, false⟩⟩⟩
    ⟨0, fun _ => ⟨⟨0, 0, false⟩, fun _ => ⟨0, 0, 0, 0, false⟩⟩⟩
    none rfl).1

theorem C8_witness :
    (hotLoopIter 0 (fun _ _ => 0)
        ⟨0, fun _ => ⟨⟨0, 0, false⟩, fun _ => ⟨0, 0, 0, 0, false⟩⟩⟩
        ⟨0, fun _ => ⟨⟨0, 0, false⟩, fun _ => ⟨0, 0, 0, 0, false⟩⟩⟩
        none).exited = true ∧
    (hotLoopIter 0 (fun _ _ => 0)
        ⟨0, fun _ => ⟨⟨0, 0, false⟩, fun _ => ⟨0, 0, 0, 0, false⟩⟩⟩
        ⟨0, fun _ => ⟨⟨0, 0, false⟩, fun _ => ⟨0, 0, 0, 0, false⟩⟩⟩
        none).actions.getLast? = some (.setSleeping 0) ∧
    sleepAfter 0 (hotLoopIter 0 (fun _ _ => 0)
        ⟨0, fun _ => ⟨⟨0, 0, false⟩, fun _ => ⟨0, 0, 0, 0, false⟩⟩⟩
        ⟨0, fun _ => ⟨⟨0, 0, false⟩, fun _ => ⟨0, 0, 0, 0, false⟩⟩⟩
        none).actions = 0 :=
  C8_disconnect_clears 0 (fun _ _ => 0)
    ⟨0, fun _ => ⟨⟨0, 0, false⟩, fun _ => ⟨0, 0, 0, 0, false⟩⟩⟩
    ⟨0, fun _ => ⟨⟨0, 0, false⟩, fun _ => ⟨0, 0, 0, 0, false⟩⟩⟩
    none rfl rfl rfl

end CoroTracer
